import Mathlib

/-!
# collection::LinkedList (src/LinkedList.hpp)

Shallow embedding of the singly linked list container and of the properties
stated about it.

Modelling conventions.

* A value of type `Node<T>*` is either the null pointer or points at a node
  that holds `data` and the pointer `next`.  Nodes are owned exclusively, so a
  pointer value is embedded together with the chain it owns (`NodePtr`).
* The constructor `Node(T data)` assigns `data` and nothing else.  What the
  member `next` of a newly allocated node reads as is therefore not fixed by
  the source; it is an explicit argument (`fresh`) of `Node.new` and of
  `insert`.  `insertR` assigns the member before it is read, `insert` does
  not.  In a sequence of calls every call of `insert` carries this content
  (`Op.insert fresh data`), so that a sequence stands for the calls together
  with what the allocator handed out.  A content other than null is embedded
  as a chain of its own; a pointer back into the list, as storage that is
  used again may hold, has no embedding as the chain it would close.
* `m_length` is a C++ `int` of 32 bits (`CInt`).  An increment at the largest
  value and a decrement at the smallest wrap around, as they do in the
  compiled program; `m_length++` and `m_length--` reduce the exact result
  modulo `2^32` into the range of `int`.
* `ss << x` appends the text form of `x`; the text form of an element is given
  by `ToString T` (the identity for text elements).
-/

namespace collection

/-- Value of a `Node<T>*`: `nullptr`, or a node with its `data` and `next` members. -/
inductive NodePtr (T : Type) where
  | nullptr : NodePtr T
  | node (data : T) (next : NodePtr T) : NodePtr T
  deriving DecidableEq, Repr

/-- Result of `new Node<T>(data)` (lines 12-14): `data` is assigned, `next` is left as the
storage holds it, which is the argument `fresh`. -/
def Node.new {T : Type} (data : T) (fresh : NodePtr T) : NodePtr T :=
  .node data fresh

/-- Value of a C++ `int`: an integer in the range of 32 bits, two's complement. -/
structure CInt where
  val : Int
  range : -2147483648 ≤ val ∧ val ≤ 2147483647
  deriving DecidableEq

/-- Result of arithmetic in `int`: the exact result reduced modulo `2^32` into the range. -/
def CInt.wrap (x : Int) : CInt :=
  ⟨(x + 2147483648) % 4294967296 - 2147483648, by omega⟩

/-- Effect of `++` on an `int`. -/
def CInt.incr (c : CInt) : CInt :=
  CInt.wrap (c.val + 1)

/-- Effect of `--` on an `int`. -/
def CInt.decr (c : CInt) : CInt :=
  CInt.wrap (c.val - 1)

instance (n : Nat) : OfNat CInt n :=
  ⟨CInt.wrap n⟩

instance : Repr CInt :=
  ⟨fun c n => reprPrec c.val n⟩

/-- Members of `LinkedList<T>` (lines 20-21). -/
structure LinkedList (T : Type) where
  m_head : NodePtr T
  m_length : CInt
  deriving DecidableEq, Repr

namespace LinkedList

variable {T : Type}

/-- Constructor `LinkedList()` (lines 24-27). -/
def new : LinkedList T :=
  { m_head := .nullptr, m_length := 0 }

/-- Loop and link of `insert` (lines 47-49) with `ptr` at a node holding `d`: the second
argument is `ptr->next`.  Returns the chain from `ptr` on after `ptr->next = temp` has been
executed at the node whose `next` is null. -/
def insert_walk (temp : NodePtr T) : T → NodePtr T → NodePtr T
  | d, .nullptr => .node d temp
  | d, .node d2 n2 => .node d (insert_walk temp d2 n2)

/-- Method `insert(T data)` (lines 39-52). -/
def insert (fresh : NodePtr T) (data : T) (l : LinkedList T) : LinkedList T :=
  let temp := Node.new data fresh
  match l.m_head with
  | .nullptr => { m_head := temp, m_length := l.m_length.incr }
  | .node d n => { m_head := insert_walk temp d n, m_length := l.m_length.incr }

/-- Method `insertR(T data)` (lines 54-60): `temp->next = m_head; m_head = temp; m_length++`.
The `next` member of the new node is assigned before it is read, so what it held at
allocation does not occur in the result. -/
def insertR (data : T) (l : LinkedList T) : LinkedList T :=
  { m_head := .node data l.m_head, m_length := l.m_length.incr }

/-- Loop of `remove` (lines 71-74) with `ptr` at a node holding `d` whose `next` is a node
holding `d2`: the third argument is `ptr->next->next`.  Returns the chain from `ptr` on after
`ptr->next = nullptr` has been executed at the second-to-last node. -/
def remove_walk : T → T → NodePtr T → NodePtr T
  | d, _, .nullptr => .node d .nullptr
  | d, d2, .node d3 n3 => .node d (remove_walk d2 d3 n3)

/-- Method `remove()` (lines 62-77).  The branch for a single node (lines 66-70) returns
before `m_length--` is reached. -/
def remove (l : LinkedList T) : LinkedList T :=
  match l.m_head with
  | .nullptr => l
  | .node _ .nullptr => { m_head := .nullptr, m_length := l.m_length }
  | .node d (.node d2 n2) => { m_head := remove_walk d d2 n2, m_length := l.m_length.decr }

/-- Method `removeR()` (lines 79-87). -/
def removeR (l : LinkedList T) : LinkedList T :=
  match l.m_head with
  | .nullptr => l
  | .node _ n => { m_head := n, m_length := l.m_length.decr }

/-- Method `length()` (lines 89-91). -/
def length (l : LinkedList T) : Int :=
  l.m_length.val

/-- Loop of `display` (lines 105-108): `ss` is the text written so far, the second argument
is `ptr`. -/
def display_loop [ToString T] : String → NodePtr T → String
  | ss, .nullptr => ss
  | ss, .node d n => display_loop (ss ++ "->" ++ toString d) n

/-- Method `display()` (lines 93-111). -/
def display [ToString T] (l : LinkedList T) : String :=
  match l.m_head with
  | .nullptr => "EMPTY_LIST"
  | .node d n => display_loop (toString d) n

end LinkedList

/-- Element values met when following `next` from a pointer until it is null, in order. -/
def NodePtr.toList {T : Type} : NodePtr T → List T
  | .nullptr => []
  | .node d n => d :: NodePtr.toList n

/-- Number of nodes met when following `next` from a pointer until it is null. -/
def NodePtr.count {T : Type} : NodePtr T → Nat
  | .nullptr => 0
  | .node _ n => NodePtr.count n + 1

/-- Build the chain that holds the given elements in order, ending in a null `next`. -/
def NodePtr.ofList {T : Type} : List T → NodePtr T
  | [] => .nullptr
  | x :: xs => .node x (NodePtr.ofList xs)

/-- One call on the public interface of `LinkedList<T>`.  A call of `insert` comes with
`fresh`, what the `next` member of the node it allocates holds when the node is linked in. -/
inductive Op (T : Type) where
  | insert (fresh : NodePtr T) (data : T) : Op T
  | insertR (data : T) : Op T
  | remove : Op T
  | removeR : Op T
  | length : Op T
  | display : Op T
  deriving DecidableEq, Repr

/-- Value handed back by a call: nothing, the `int` of `length`, or the text of `display`. -/
inductive Ret where
  | void : Ret
  | int (n : Int) : Ret
  | text (s : String) : Ret
  deriving DecidableEq, Repr

/-- Effect of one call on the list, with the value it returns. -/
def Op.exec {T : Type} [ToString T] : Op T → LinkedList T → LinkedList T × Ret
  | .insert fresh data, l => (l.insert fresh data, .void)
  | .insertR data, l => (l.insertR data, .void)
  | .remove, l => (l.remove, .void)
  | .removeR, l => (l.removeR, .void)
  | .length, l => (l, .int l.length)
  | .display, l => (l, .text l.display)

/-- State after a sequence of calls, executed left to right. -/
def run {T : Type} [ToString T] : List (Op T) → LinkedList T → LinkedList T
  | [], l => l
  | op :: ops, l => run ops (op.exec l).1

/-- States that a sequence of calls reaches from the newly constructed list. -/
def Reachable {T : Type} [ToString T] (s : LinkedList T) : Prop :=
  ∃ ops : List (Op T), run ops LinkedList.new = s

/-- Sequence of `n` pairs of calls `insertR(x); remove()`. -/
def inflate {T : Type} (x : T) : Nat → List (Op T)
  | 0 => []
  | n + 1 => Op.insertR x :: Op.remove :: inflate x n

/-- Values returned by the calls of a sequence, in call order. -/
def trace {T : Type} [ToString T] : List (Op T) → LinkedList T → List Ret
  | [], _ => []
  | op :: ops, l => (op.exec l).2 :: trace ops (op.exec l).1

/-! ### Loops with explicit dereferences and iteration counts

The same loops as above, taking the pointer `ptr` itself.  The result is `none` when the loop
would read a member through a null pointer; otherwise it carries the number of times the loop
body `ptr = ptr->next` has run. -/

namespace LinkedList

variable {T : Type}

/-- Lines 47-49 of `insert`, started with `ptr` as given: the condition reads `ptr->next`. -/
def insert_loop (temp : NodePtr T) : NodePtr T → Option (NodePtr T × Nat)
  | .nullptr => none
  | .node d .nullptr => some (.node d temp, 0)
  | .node d (.node d2 n2) =>
    match insert_loop temp (.node d2 n2) with
    | none => none
    | some r => some (.node d r.1, r.2 + 1)

/-- Method `insert(T data)` (lines 39-52) over `insert_loop`. -/
def insert_traced (fresh : NodePtr T) (data : T) (l : LinkedList T) :
    Option (LinkedList T × Nat) :=
  let temp := Node.new data fresh
  match l.m_head with
  | .nullptr => some ({ m_head := temp, m_length := l.m_length.incr }, 0)
  | .node d n =>
    match insert_loop temp (.node d n) with
    | none => none
    | some r => some ({ m_head := r.1, m_length := l.m_length.incr }, r.2)

/-- Lines 71-74 of `remove`, started with `ptr` as given: the condition reads `ptr->next` and
then `ptr->next->next`. -/
def remove_loop : NodePtr T → Option (NodePtr T × Nat)
  | .nullptr => none
  | .node _ .nullptr => none
  | .node d (.node _ .nullptr) => some (.node d .nullptr, 0)
  | .node d (.node d2 (.node d3 n3)) =>
    match remove_loop (.node d2 (.node d3 n3)) with
    | none => none
    | some r => some (.node d r.1, r.2 + 1)

/-- Method `remove()` (lines 62-77) over `remove_loop`: the loop is started only after the two
tests at lines 64 and 66 have failed. -/
def remove_traced (l : LinkedList T) : Option (LinkedList T × Nat) :=
  match l.m_head with
  | .nullptr => some (l, 0)
  | .node _ .nullptr => some ({ m_head := .nullptr, m_length := l.m_length }, 0)
  | .node d (.node d2 n2) =>
    match remove_loop (.node d (.node d2 n2)) with
    | none => none
    | some r => some ({ m_head := r.1, m_length := l.m_length.decr }, r.2)

/-- Lines 105-108 of `display` with the number of iterations: the condition tests `ptr`
itself, so no member is read through a null pointer. -/
def display_loop_traced [ToString T] : String → NodePtr T → String × Nat
  | ss, .nullptr => (ss, 0)
  | ss, .node d n =>
    ((display_loop_traced (ss ++ "->" ++ toString d) n).1,
      (display_loop_traced (ss ++ "->" ++ toString d) n).2 + 1)

/-- Method `display()` (lines 93-111) over `display_loop_traced`. -/
def display_traced [ToString T] (l : LinkedList T) : String × Nat :=
  match l.m_head with
  | .nullptr => ("EMPTY_LIST", 0)
  | .node d n => display_loop_traced (toString d) n

end LinkedList

/-! ### Host adapter (src/main.cpp) -/

namespace main_cpp

/-- Global `collection::LinkedList<std::string> ll` (line 6), as constructed at start-up. -/
def ll : LinkedList String :=
  LinkedList.new

/-- Function `insert` (lines 8-10): `ll.insert(data)`, with `fresh` what the `next` member of
the node allocated by that call holds. -/
def insert (fresh : NodePtr String) (data : String) (g : LinkedList String) :
    LinkedList String × Ret :=
  (g.insert fresh data, .void)

/-- Function `insertR` (lines 12-14). -/
def insertR (data : String) (g : LinkedList String) : LinkedList String × Ret :=
  (g.insertR data, .void)

/-- Function `removeN` (lines 16-18). -/
def removeN (g : LinkedList String) : LinkedList String × Ret :=
  (g.remove, .void)

/-- Function `removeR` (lines 20-22). -/
def removeR (g : LinkedList String) : LinkedList String × Ret :=
  (g.removeR, .void)

/-- Function `length` (lines 24-26). -/
def length (g : LinkedList String) : LinkedList String × Ret :=
  (g, .int g.length)

/-- Function `items` (lines 28-30). -/
def items (g : LinkedList String) : LinkedList String × Ret :=
  (g, .text g.display)

/-- Call of one of the names registered in `EMSCRIPTEN_BINDINGS` (lines 32-39), with its
argument; a call of `insert` comes with `fresh` as in `Op.insert`. -/
inductive Call where
  | insert (fresh : NodePtr String) (data : String) : Call
  | insertR (data : String) : Call
  | remove : Call
  | removeR : Call
  | length : Call
  | items : Call
  deriving DecidableEq, Repr

/-- Function that each registered name is bound to (lines 33-38). -/
def Call.dispatch : Call → LinkedList String → LinkedList String × Ret
  | .insert fresh data => main_cpp.insert fresh data
  | .insertR data => main_cpp.insertR data
  | .remove => main_cpp.removeN
  | .removeR => main_cpp.removeR
  | .length => main_cpp.length
  | .items => main_cpp.items

/-- Sequence of calls from the host on the global list: final global state and the values
returned, in call order. -/
def session : List Call → LinkedList String → LinkedList String × List Ret
  | [], g => (g, [])
  | c :: cs, g =>
    ((session cs (c.dispatch g).1).1, (c.dispatch g).2 :: (session cs (c.dispatch g).1).2)

/-- Container operation that the specification assigns to each entry point: `insert` and
`insertR` to insertion at the back and at the front, `remove` and `removeR` to removal at the
back and at the front, `length` to the length query and `items` to the rendering. -/
def Call.toOp : Call → Op String
  | .insert fresh data => Op.insert fresh data
  | .insertR data => Op.insertR data
  | .remove => Op.remove
  | .removeR => Op.removeR
  | .length => Op.length
  | .items => Op.display

end main_cpp

end collection


/-! ## Auxiliary facts about `int` arithmetic -/

namespace collection

theorem CInt.ext {a b : CInt} (h : a.val = b.val) : a = b := by
  cases a
  cases b
  simp only at h
  subst h
  rfl

theorem CInt.val_wrap_of_range (x : Int) (h1 : -2147483648 ≤ x) (h2 : x ≤ 2147483647) :
    (CInt.wrap x).val = x := by
  simp only [CInt.wrap]
  omega

theorem CInt.val_incr (c : CInt) :
    c.incr.val = if c.val = 2147483647 then -2147483648 else c.val + 1 := by
  have h := c.range
  simp only [CInt.incr, CInt.wrap]
  split <;> omega

theorem CInt.val_decr (c : CInt) :
    c.decr.val = if c.val = -2147483648 then 2147483647 else c.val - 1 := by
  have h := c.range
  simp only [CInt.decr, CInt.wrap]
  split <;> omega

theorem CInt.decr_incr (c : CInt) : c.incr.decr = c := by
  apply CInt.ext
  have h := c.range
  simp only [CInt.incr, CInt.decr, CInt.wrap]
  omega

theorem CInt.incr_wrap (x : Int) : (CInt.wrap x).incr = CInt.wrap (x + 1) := by
  apply CInt.ext
  simp only [CInt.incr, CInt.wrap]
  omega

theorem CInt.wrap_val (c : CInt) : CInt.wrap c.val = c := by
  apply CInt.ext
  have h := c.range
  simp only [CInt.wrap]
  omega

end collection

/-! ## Auxiliary facts about chains -/

namespace collection

variable {T : Type}

theorem NodePtr.toList_ofList (xs : List T) : (NodePtr.ofList xs).toList = xs := by
  induction xs with
  | nil => rfl
  | cons x xs ih => simp [NodePtr.ofList, NodePtr.toList, ih]

theorem NodePtr.ofList_toList (p : NodePtr T) : NodePtr.ofList p.toList = p := by
  induction p with
  | nullptr => rfl
  | node d n ih => simp [NodePtr.ofList, NodePtr.toList, ih]

theorem NodePtr.toList_injective {p q : NodePtr T} (h : p.toList = q.toList) : p = q := by
  rw [← NodePtr.ofList_toList p, ← NodePtr.ofList_toList q, h]

theorem NodePtr.length_toList (p : NodePtr T) : p.toList.length = p.count := by
  induction p with
  | nullptr => rfl
  | node d n ih => simp [NodePtr.toList, NodePtr.count, ih]

theorem LinkedList.toList_insert_walk (temp : NodePtr T) (d : T) (n : NodePtr T) :
    (LinkedList.insert_walk temp d n).toList = d :: (n.toList ++ temp.toList) := by
  induction n generalizing d with
  | nullptr => simp [LinkedList.insert_walk, NodePtr.toList]
  | node d2 n2 ih => simp [LinkedList.insert_walk, NodePtr.toList, ih]

theorem LinkedList.toList_insert (fresh : NodePtr T) (v : T) (l : LinkedList T) :
    (l.insert fresh v).m_head.toList = l.m_head.toList ++ v :: fresh.toList := by
  obtain ⟨h, len⟩ := l
  cases h with
  | nullptr => simp [LinkedList.insert, Node.new, NodePtr.toList]
  | node d n => simp [LinkedList.insert, Node.new, NodePtr.toList, LinkedList.toList_insert_walk]

theorem LinkedList.toList_remove_walk (d d2 : T) (n : NodePtr T) :
    (LinkedList.remove_walk d d2 n).toList = (d :: d2 :: n.toList).dropLast := by
  induction n generalizing d d2 with
  | nullptr => simp [LinkedList.remove_walk, NodePtr.toList]
  | node d3 n3 ih => simp [LinkedList.remove_walk, NodePtr.toList, ih]

theorem LinkedList.toList_remove (l : LinkedList T) :
    l.remove.m_head.toList = l.m_head.toList.dropLast := by
  obtain ⟨h, len⟩ := l
  cases h with
  | nullptr => simp [LinkedList.remove, NodePtr.toList]
  | node d n =>
    cases n with
    | nullptr => simp [LinkedList.remove, NodePtr.toList]
    | node d2 n2 => simp [LinkedList.remove, NodePtr.toList, LinkedList.toList_remove_walk]

theorem LinkedList.display_loop_eq [ToString T] (ss : String) (n : NodePtr T) :
    LinkedList.display_loop ss n = String.intercalate.go ss "->" (n.toList.map toString) := by
  induction n generalizing ss with
  | nullptr => simp [LinkedList.display_loop, NodePtr.toList, String.intercalate.go]
  | node d n ih => simp [LinkedList.display_loop, NodePtr.toList, String.intercalate.go, ih]

end collection

/-! ## Further auxiliary facts -/

namespace collection

variable {T : Type}

theorem LinkedList.length_insert (fresh : NodePtr T) (v : T) (l : LinkedList T) :
    (l.insert fresh v).m_length = l.m_length.incr := by
  obtain ⟨h, len⟩ := l
  cases h <;> simp [LinkedList.insert]

theorem LinkedList.length_remove_of_two (d d2 : T) (n : NodePtr T) (len : CInt) :
    (LinkedList.remove { m_head := .node d (.node d2 n), m_length := len }).m_length
      = len.decr := by
  simp [LinkedList.remove]

/-- On a list that already has a node, `insert` followed by `remove` gives back the state. -/
theorem LinkedList.remove_insert_of_node (v d : T) (n : NodePtr T) (len : CInt) :
    (LinkedList.insert .nullptr v { m_head := .node d n, m_length := len }).remove
      = { m_head := .node d n, m_length := len } := by
  have hl := LinkedList.toList_remove
    (LinkedList.insert .nullptr v { m_head := .node d n, m_length := len })
  rw [LinkedList.toList_insert] at hl
  have hh : (LinkedList.insert .nullptr v { m_head := .node d n, m_length := len }).remove.m_head
      = .node d n := by
    apply NodePtr.toList_injective
    rw [hl]
    have e : (NodePtr.node d n).toList ++ v :: (NodePtr.nullptr : NodePtr T).toList
        = (d :: n.toList) ++ [v] := by simp [NodePtr.toList]
    rw [e, List.dropLast_concat]
    rfl
  have hm : (LinkedList.insert .nullptr v { m_head := .node d n, m_length := len }).remove.m_length
      = len := by
    cases n with
    | nullptr =>
      simp [LinkedList.insert, LinkedList.remove, LinkedList.insert_walk, Node.new,
        CInt.decr_incr]
    | node d2 n2 =>
      cases n2 with
      | nullptr =>
        simp [LinkedList.insert, LinkedList.remove, LinkedList.insert_walk, Node.new,
          CInt.decr_incr]
      | node d3 n3 =>
        simp [LinkedList.insert, LinkedList.remove, LinkedList.insert_walk, Node.new,
          CInt.decr_incr]
  cases hr : (LinkedList.insert .nullptr v { m_head := .node d n, m_length := len }).remove with
  | mk h m =>
    rw [hr] at hh hm
    simp only at hh hm
    rw [hh, hm]

theorem LinkedList.display_of_toList [ToString T] (l : LinkedList T) :
    l.display =
      if l.m_head.toList.isEmpty then "EMPTY_LIST"
      else String.intercalate "->" (l.m_head.toList.map toString) := by
  obtain ⟨h, len⟩ := l
  cases h with
  | nullptr => simp [LinkedList.display, NodePtr.toList]
  | node d n =>
    simp [LinkedList.display, NodePtr.toList, String.intercalate, LinkedList.display_loop_eq]

theorem run_append [ToString T] (a b : List (Op T)) (l : LinkedList T) :
    run (a ++ b) l = run b (run a l) := by
  induction a generalizing l with
  | nil => rfl
  | cons op ops ih => simp [run, ih]

/-- Elements after back insertions whose new nodes all read a null `next`. -/
theorem toList_run_insert [ToString T] (vs : List T) (l : LinkedList T) :
    (run (vs.map (Op.insert .nullptr)) l).m_head.toList = l.m_head.toList ++ vs := by
  induction vs generalizing l with
  | nil => simp [run]
  | cons v vs ih => simp [run, Op.exec, ih, LinkedList.toList_insert, NodePtr.toList]

/-- Counter after back insertions: the number of insertions is added modulo `2^32`. -/
theorem length_run_insert [ToString T] (fs : List (NodePtr T × T)) (l : LinkedList T) :
    (run (fs.map (fun p => Op.insert p.1 p.2)) l).m_length
      = CInt.wrap (l.m_length.val + fs.length) := by
  induction fs generalizing l with
  | nil => simp [run, CInt.wrap_val]
  | cons v vs ih =>
    simp only [List.map_cons, run, Op.exec, ih, LinkedList.length_insert, List.length_cons]
    apply CInt.ext
    simp only [CInt.incr, CInt.wrap]
    push_cast
    omega

/-- State after `n` pairs `insertR(x); remove()` on an empty chain: the chain is empty again
and the counter has gone up by `n`, modulo `2^32`. -/
theorem run_inflate [ToString T] (x : T) (n : Nat) (c : CInt) :
    run (inflate x n) { m_head := .nullptr, m_length := c }
      = { m_head := .nullptr, m_length := CInt.wrap (c.val + n) } := by
  induction n generalizing c with
  | zero => simp [inflate, run, CInt.wrap_val]
  | succ n ih =>
    simp only [inflate, run, Op.exec, LinkedList.insertR, LinkedList.remove, ih]
    congr 1
    apply CInt.ext
    simp only [CInt.incr, CInt.wrap]
    push_cast
    omega

/-- The empty chain with the counter at the largest `int` is reached from the new list. -/
theorem reachable_empty_at_max :
    Reachable ({ m_head := .nullptr, m_length := 2147483647 } : LinkedList String) := by
  refine ⟨inflate "x" 2147483647, ?_⟩
  have h := run_inflate "x" 2147483647 (0 : CInt)
  simp only [LinkedList.new]
  rw [h]
  congr 1

theorem LinkedList.count_insert_walk (temp : NodePtr T) (d : T) (n : NodePtr T) :
    (LinkedList.insert_walk temp d n).count = n.count + temp.count + 1 := by
  induction n generalizing d with
  | nullptr => simp [LinkedList.insert_walk, NodePtr.count]
  | node d2 n2 ih =>
    simp [LinkedList.insert_walk, NodePtr.count, ih]
    omega

theorem LinkedList.count_remove_walk (d d2 : T) (n : NodePtr T) :
    (LinkedList.remove_walk d d2 n).count = n.count + 1 := by
  induction n generalizing d d2 with
  | nullptr => simp [LinkedList.remove_walk, NodePtr.count]
  | node d3 n3 ih => simp [LinkedList.remove_walk, NodePtr.count, ih]

theorem LinkedList.insert_loop_eq (temp : NodePtr T) (d : T) (n : NodePtr T) :
    LinkedList.insert_loop temp (.node d n) = some (LinkedList.insert_walk temp d n, n.count) := by
  induction n generalizing d with
  | nullptr => simp [LinkedList.insert_loop, LinkedList.insert_walk, NodePtr.count]
  | node d2 n2 ih => simp [LinkedList.insert_loop, LinkedList.insert_walk, NodePtr.count, ih]

theorem LinkedList.remove_loop_eq (d d2 : T) (n : NodePtr T) :
    LinkedList.remove_loop (.node d (.node d2 n))
      = some (LinkedList.remove_walk d d2 n, n.count) := by
  induction n generalizing d d2 with
  | nullptr => simp [LinkedList.remove_loop, LinkedList.remove_walk, NodePtr.count]
  | node d3 n3 ih => simp [LinkedList.remove_loop, LinkedList.remove_walk, NodePtr.count, ih]

theorem LinkedList.display_loop_traced_eq [ToString T] (ss : String) (n : NodePtr T) :
    LinkedList.display_loop_traced ss n = (LinkedList.display_loop ss n, n.count) := by
  induction n generalizing ss with
  | nullptr => simp [LinkedList.display_loop_traced, LinkedList.display_loop, NodePtr.count]
  | node d n ih =>
    simp [LinkedList.display_loop_traced, LinkedList.display_loop, NodePtr.count, ih]

theorem main_cpp.dispatch_eq_exec (c : main_cpp.Call) (g : LinkedList String) :
    c.dispatch g = c.toOp.exec g := by
  cases c <;> rfl

theorem main_cpp.session_eq (calls : List main_cpp.Call) (g : LinkedList String) :
    main_cpp.session calls g
      = (run (calls.map main_cpp.Call.toOp) g, trace (calls.map main_cpp.Call.toOp) g) := by
  induction calls generalizing g with
  | nil => rfl
  | cons c cs ih => simp [main_cpp.session, run, trace, ih, main_cpp.dispatch_eq_exec]

end collection

/-! ## The counter and the number of nodes -/

namespace collection

variable {T : Type}

/-- One call keeps the counter at or above the number of nodes, and raises it by at most one,
when the counter is below the largest `int` and a node allocated by `insert` reads a null
`next`. -/
theorem Op.exec_count_le [ToString T] (op : Op T) (l : LinkedList T)
    (hf : ∀ f d, op = Op.insert f d → f = .nullptr)
    (hlt : l.length < 2147483647)
    (h : (l.m_head.count : Int) ≤ l.length) :
    (((op.exec l).1.m_head.count : Nat) : Int) ≤ (op.exec l).1.length
      ∧ (op.exec l).1.length ≤ l.length + 1 := by
  obtain ⟨p, len⟩ := l
  have hr := len.range
  simp only [LinkedList.length] at h hlt ⊢
  cases op with
  | insert f data =>
    have hnull : f = .nullptr := hf f data rfl
    subst hnull
    cases p with
    | nullptr =>
      simp only [Op.exec, LinkedList.insert, Node.new, NodePtr.count, CInt.val_incr] at h ⊢
      split <;> omega
    | node d n =>
      simp only [Op.exec, LinkedList.insert, Node.new, NodePtr.count,
        LinkedList.count_insert_walk, CInt.val_incr] at h ⊢
      split <;> push_cast at h ⊢ <;> omega
  | insertR data =>
    simp only [Op.exec, LinkedList.insertR, NodePtr.count, CInt.val_incr] at h ⊢
    split <;> push_cast at h ⊢ <;> omega
  | remove =>
    cases p with
    | nullptr =>
      simp only [Op.exec, LinkedList.remove] at h ⊢
      omega
    | node d n =>
      cases n with
      | nullptr =>
        simp only [Op.exec, LinkedList.remove, NodePtr.count] at h ⊢
        push_cast at h ⊢
        omega
      | node d2 n2 =>
        simp only [Op.exec, LinkedList.remove, NodePtr.count, LinkedList.count_remove_walk,
          CInt.val_decr] at h ⊢
        split <;> push_cast at h ⊢ <;> omega
  | removeR =>
    cases p with
    | nullptr =>
      simp only [Op.exec, LinkedList.removeR] at h ⊢
      omega
    | node d n =>
      simp only [Op.exec, LinkedList.removeR, NodePtr.count, CInt.val_decr] at h ⊢
      split <;> push_cast at h ⊢ <;> omega
  | length =>
    simp only [Op.exec] at h ⊢
    omega
  | display =>
    simp only [Op.exec] at h ⊢
    omega

/-- A sequence of calls keeps the counter at or above the number of nodes when every node
allocated by `insert` reads a null `next` and the calls are too few for the counter to pass
the largest `int`. -/
theorem run_count_le [ToString T] (ops : List (Op T)) (l : LinkedList T)
    (hf : ∀ op ∈ ops, ∀ f d, op = Op.insert f d → f = .nullptr)
    (hlen : l.length + ops.length ≤ 2147483647)
    (h : (l.m_head.count : Int) ≤ l.length) :
    (((run ops l).m_head.count : Nat) : Int) ≤ (run ops l).length := by
  induction ops generalizing l with
  | nil => simpa [run] using h
  | cons op ops ih =>
    simp only [List.length_cons] at hlen
    push_cast at hlen
    have hstep := Op.exec_count_le op l (hf op (List.mem_cons_self _ _)) (by omega) h
    apply ih
    · intro o ho
      exact hf o (List.mem_cons_of_mem _ ho)
    · omega
    · exact hstep.1

/-- Scenario `insert("a"); insert("b"); insertR("z")` on the new list when both nodes
allocated by `insert` read a null `next`. -/
theorem scenario_back_then_front_null_next :
    (run [Op.insert .nullptr "a", Op.insert .nullptr "b", Op.insertR "z"]
        (LinkedList.new : LinkedList String)).length = 3
      ∧ (run [Op.insert .nullptr "a", Op.insert .nullptr "b", Op.insertR "z"]
        (LinkedList.new : LinkedList String)).display = "z->a->b" := by
  decide

set_option maxRecDepth 100000 in
/-- Back insertion of the values 0..99 on the new list when every allocated node reads a null
`next`: length 100, and the rendering begins with `0->1->2->` and ends with `->98->99`. -/
theorem insert_range_null_next :
    (run ((List.range 100).map (Op.insert .nullptr)) (LinkedList.new : LinkedList Nat)).length
        = 100
      ∧ "0->1->2->".data
          <+: (run ((List.range 100).map (Op.insert .nullptr))
                (LinkedList.new : LinkedList Nat)).display.data
      ∧ "->98->99".data
          <:+ (run ((List.range 100).map (Op.insert .nullptr))
                (LinkedList.new : LinkedList Nat)).display.data := by
  decide

end collection

/-! ## The claims -/

namespace collection

variable {T : Type}

/-- C1 (length equals the number of nodes after every operation): the code at the sequence
`insert("x"); remove()` on a new list.  The chain is empty again, so no node is reachable from
`m_head`, while `length()` returns 1: the single-node branch of `remove` returns before the
counter is decremented. -/
theorem C1_length_differs_from_node_count :
    (run [Op.insert .nullptr "x", Op.remove] (LinkedList.new : LinkedList String)).length = 1
      ∧ (run [Op.insert .nullptr "x", Op.remove]
          (LinkedList.new : LinkedList String)).m_head.count = 0 := by
  decide

/-- C2 (`insert(x)` then `remove()` restores length and rendering): the code on the new, empty
list, which is a reachable state.  The rendering is restored, the length is not: it was 0 and
is 1 afterwards. -/
theorem C2_insert_remove_on_empty :
    Reachable (LinkedList.new : LinkedList String)
      ∧ (LinkedList.new : LinkedList String).length = 0
      ∧ ((LinkedList.new : LinkedList String).insert .nullptr "x").remove.length = 1
      ∧ ((LinkedList.new : LinkedList String).insert .nullptr "x").remove.display
          = (LinkedList.new : LinkedList String).display :=
  ⟨⟨[], rfl⟩, by decide⟩

/-- C3: for every list state and every value, `insertR(x)` followed by `removeR()` gives a
state with the same `length()` and the same `display()` text as before (the state itself is
the same). -/
theorem C3_insertR_removeR_restores [ToString T] (x : T) (s : LinkedList T) :
    (s.insertR x).removeR.length = s.length
      ∧ (s.insertR x).removeR.display = s.display
      ∧ (s.insertR x).removeR = s := by
  have h : (s.insertR x).removeR = s := by
    obtain ⟨h, len⟩ := s
    simp [LinkedList.insertR, LinkedList.removeR, CInt.decr_incr]
  rw [h]
  exact ⟨rfl, rfl, rfl⟩

/-- C4 (`remove()` decrements the counter whenever it removes a node): the code on a list
with exactly one node.  The node is removed and `m_head` becomes null, but the counter keeps
its value. -/
theorem C4_remove_single_node_keeps_length (x : T) (len : CInt) :
    (LinkedList.remove { m_head := .node x .nullptr, m_length := len }).m_head = .nullptr
      ∧ (LinkedList.remove { m_head := .node x .nullptr, m_length := len }).length
          = len.val := by
  simp [LinkedList.remove, LinkedList.length]

/-- C5 (`insert(x); remove(); remove()` on an empty list gives length 0 and the empty
rendering): the code gives the rendering `EMPTY_LIST` but `length()` returns 1, for every
value `x`. -/
theorem C5_insert_remove_remove [ToString T] (x : T) :
    ((LinkedList.new : LinkedList T).insert .nullptr x).remove.remove.length = 1
      ∧ ((LinkedList.new : LinkedList T).insert .nullptr x).remove.remove.display
          = "EMPTY_LIST" := by
  refine ⟨?_, ?_⟩
  · simp only [LinkedList.new, LinkedList.insert, Node.new, LinkedList.remove,
      LinkedList.length]
    decide
  · simp [LinkedList.new, LinkedList.insert, Node.new, LinkedList.remove, LinkedList.display]

/-- C6: `display()` returns `EMPTY_LIST` when the chain from `m_head` has no element, and
otherwise the text forms of the elements, in head-to-tail order, joined by `->` with no
separator before the first or after the last. -/
theorem C6_display_joins_elements [ToString T] (l : LinkedList T) :
    l.display =
      if l.m_head.toList.isEmpty then "EMPTY_LIST"
      else String.intercalate "->" (l.m_head.toList.map toString) := by
  obtain ⟨h, len⟩ := l
  cases h with
  | nullptr => simp [LinkedList.display, NodePtr.toList]
  | node d n =>
    simp [LinkedList.display, NodePtr.toList, String.intercalate, LinkedList.display_loop_eq]

/-- C7, as amended: for every list and every value `v`, `insert(v)` whose new node reads a
null `next` gives the chain whose elements are the former elements followed by `v`, so `v` is
the head when there were none; `length()` is one greater than before, except that from the
largest `int`, 2147483647, it goes to the smallest, -2147483648. -/
theorem C7_insert_appends (v : T) (l : LinkedList T) :
    (l.insert .nullptr v).m_head.toList = l.m_head.toList ++ [v]
      ∧ (l.insert .nullptr v).length
          = if l.length = 2147483647 then -2147483648 else l.length + 1 := by
  refine ⟨by simp [LinkedList.toList_insert, NodePtr.toList], ?_⟩
  simp only [LinkedList.length, LinkedList.length_insert, CInt.val_incr]

/-- C7 as stated fails on the code at two inputs.  With the counter at 2147483647, `insert`
leaves `length()` at -2147483648, which is not one greater; and when the `next` member of the
new node holds a pointer to a node, not null, the elements after `insert("v")` on the new list
are not the single element `v`. -/
theorem C7_insert_appends_counterexample :
    (LinkedList.insert .nullptr "v" (LinkedList.mk .nullptr 2147483647)).length
        ≠ (LinkedList.mk .nullptr 2147483647 : LinkedList String).length + 1
      ∧ (LinkedList.insert .nullptr "v" (LinkedList.mk .nullptr 2147483647)).length
        = -2147483648
      ∧ (LinkedList.insert (.node "w" .nullptr) "v" LinkedList.new).m_head.toList
        ≠ (LinkedList.new : LinkedList String).m_head.toList ++ ["v"] := by
  decide

/-- C8, as amended: for every list and every value `v`, `insertR(v)` gives the chain whose
elements are `v` followed by the former elements; `length()` is one greater than before,
except that from the largest `int`, 2147483647, it goes to the smallest, -2147483648. -/
theorem C8_insertR_prepends (v : T) (l : LinkedList T) :
    (l.insertR v).m_head.toList = v :: l.m_head.toList
      ∧ (l.insertR v).length
          = if l.length = 2147483647 then -2147483648 else l.length + 1 := by
  refine ⟨by simp [LinkedList.insertR, NodePtr.toList], ?_⟩
  simp only [LinkedList.length, LinkedList.insertR, CInt.val_incr]

/-- C8 as stated fails on the code when the counter is at 2147483647, a state that pairs of
`insertR(x); remove()` reach from the new list with the chain empty: after `insertR("v")`,
`length()` is -2147483648, which is not one greater than before. -/
theorem C8_insertR_prepends_counterexample :
    Reachable (LinkedList.mk .nullptr 2147483647 : LinkedList String)
      ∧ (LinkedList.insertR "v" (LinkedList.mk .nullptr 2147483647)).length
        ≠ (LinkedList.mk .nullptr 2147483647 : LinkedList String).length + 1
      ∧ (LinkedList.insertR "v" (LinkedList.mk .nullptr 2147483647)).length = -2147483648
      ∧ (LinkedList.insertR "v" (LinkedList.mk .nullptr 2147483647)).m_head.toList = ["v"] :=
  ⟨reachable_empty_at_max, by decide⟩

/-- C9: when the elements of the list are `xs` followed by a last element `x`, `remove()`
gives the chain whose elements are exactly `xs`, in the same order (none when `xs` is
empty). -/
theorem C9_remove_drops_last (l : LinkedList T) (xs : List T) (x : T)
    (h : l.m_head.toList = xs ++ [x]) :
    l.remove.m_head.toList = xs := by
  rw [LinkedList.toList_remove, h]
  simp

/-- Witness for C9 on the three-element list `a, b, c`. -/
theorem C9_remove_drops_last_witness :
    (LinkedList.mk (NodePtr.ofList ["a", "b", "c"]) 3).m_head.toList = ["a", "b"] ++ ["c"]
      ∧ (LinkedList.mk (NodePtr.ofList ["a", "b", "c"]) 3).remove.m_head.toList = ["a", "b"] :=
  ⟨by decide, C9_remove_drops_last _ ["a", "b"] "c" (by decide)⟩

/-- C10, as amended: when the elements of the list are `x` followed by `xs`, `removeR()` gives
the chain whose elements are exactly `xs`; `length()` is one less than before, except that
from the smallest `int`, -2147483648, it goes to the largest, 2147483647. -/
theorem C10_removeR_drops_head (l : LinkedList T) (x : T) (xs : List T)
    (h : l.m_head.toList = x :: xs) :
    l.removeR.m_head.toList = xs
      ∧ l.removeR.length = if l.length = -2147483648 then 2147483647 else l.length - 1 := by
  obtain ⟨p, len⟩ := l
  cases p with
  | nullptr => simp [NodePtr.toList] at h
  | node d n =>
    simp only [NodePtr.toList, List.cons.injEq] at h
    simp only [LinkedList.removeR, LinkedList.length, CInt.val_decr, h.2, and_self]

/-- Witness for C10 on the three-element list `a, b, c`. -/
theorem C10_removeR_drops_head_witness :
    (LinkedList.mk (NodePtr.ofList ["a", "b", "c"]) 3).m_head.toList = "a" :: ["b", "c"]
      ∧ (LinkedList.mk (NodePtr.ofList ["a", "b", "c"]) 3).removeR.m_head.toList = ["b", "c"]
      ∧ (LinkedList.mk (NodePtr.ofList ["a", "b", "c"]) 3).removeR.length = 2 :=
  ⟨by decide, (C10_removeR_drops_head _ "a" ["b", "c"] (by decide)).1,
    (C10_removeR_drops_head (LinkedList.mk (NodePtr.ofList ["a", "b", "c"]) 3) "a" ["b", "c"]
      (by decide)).2.trans (by decide)⟩

/-- C10 as stated fails on the code at the list with the one element `x` and the counter at
-2147483648, the state that `insertR("x")` produces from the empty chain with the counter at
2147483647: after `removeR()`, `length()` is 2147483647, which is not one less than before. -/
theorem C10_removeR_drops_head_counterexample :
    ((LinkedList.mk .nullptr 2147483647).insertR "x").m_head.toList = "x" :: []
      ∧ ((LinkedList.mk .nullptr 2147483647).insertR "x").length = -2147483648
      ∧ ((LinkedList.mk .nullptr 2147483647).insertR "x").removeR.length = 2147483647
      ∧ ((LinkedList.mk .nullptr 2147483647).insertR "x").removeR.length
        ≠ ((LinkedList.mk .nullptr 2147483647).insertR "x").length - 1 := by
  decide

end collection

/-! ## The claims, continued -/

namespace collection

variable {T : Type}

/-- C11: on the empty list (null head, counter 0) both `remove()` and `removeR()` return
without reading through a pointer and change nothing: the state is the same, so the head is
still null, `length()` is 0 and `display()` is `EMPTY_LIST`. -/
theorem C11_remove_on_empty_is_noop [ToString T] :
    (LinkedList.new : LinkedList T).remove = LinkedList.new
      ∧ (LinkedList.new : LinkedList T).removeR = LinkedList.new
      ∧ (LinkedList.new : LinkedList T).remove_traced = some (LinkedList.new, 0)
      ∧ (LinkedList.new : LinkedList T).remove.m_head = .nullptr
      ∧ (LinkedList.new : LinkedList T).remove.length = 0
      ∧ (LinkedList.new : LinkedList T).remove.display = "EMPTY_LIST"
      ∧ (LinkedList.new : LinkedList T).removeR.m_head = .nullptr
      ∧ (LinkedList.new : LinkedList T).removeR.length = 0
      ∧ (LinkedList.new : LinkedList T).removeR.display = "EMPTY_LIST" := by
  refine ⟨rfl, rfl, rfl, rfl, ?_, rfl, rfl, ?_, rfl⟩ <;>
    simp only [LinkedList.new, LinkedList.remove, LinkedList.removeR, LinkedList.length] <;>
    decide

/-- C12 (`length() == 0` exactly when the head is null, in every reachable state): the code at
the state reached by `insert("x"); remove()`.  The head is null while `length()` returns 1. -/
theorem C12_null_head_with_length_one :
    Reachable (run [Op.insert .nullptr "x", Op.remove] (LinkedList.new : LinkedList String))
      ∧ (run [Op.insert .nullptr "x", Op.remove]
          (LinkedList.new : LinkedList String)).m_head = .nullptr
      ∧ (run [Op.insert .nullptr "x", Op.remove]
          (LinkedList.new : LinkedList String)).length = 1 :=
  ⟨⟨[Op.insert .nullptr "x", Op.remove], rfl⟩, by decide⟩

/-- C13 (`insert("a"); insert("b"); insertR("z")` from an empty list gives length 3 and the
rendering `z->a->b`): the code when the node allocated for `b` holds in its `next` member a
pointer to a node holding `w`, not null.  `insert` never assigns that member, so the chain
goes on behind `b`: `length()` is 3, the chain has 4 nodes and the rendering is `z->a->b->w`,
with an element behind the last back-inserted one. -/
theorem C13_scenario_with_unassigned_next :
    (run [Op.insert .nullptr "a", Op.insert (.node "w" .nullptr) "b", Op.insertR "z"]
        (LinkedList.new : LinkedList String)).length = 3
      ∧ (run [Op.insert .nullptr "a", Op.insert (.node "w" .nullptr) "b", Op.insertR "z"]
        (LinkedList.new : LinkedList String)).display = "z->a->b->w"
      ∧ (run [Op.insert .nullptr "a", Op.insert (.node "w" .nullptr) "b", Op.insertR "z"]
        (LinkedList.new : LinkedList String)).m_head.count = 4 := by
  decide

/-- C14 (inserting `v0..v(n-1)` at the back of an empty list gives length `n` and their text
forms joined by `->`): the code for the two values `a, b` when the node allocated for `b`
holds in its `next` member a pointer to a node holding `w`, not null.  `length()` is 2 but
the rendering is `a->b->w`, not `a->b`. -/
theorem C14_insert_sequence_with_unassigned_next :
    (run [Op.insert .nullptr "a", Op.insert (.node "w" .nullptr) "b"]
        (LinkedList.new : LinkedList String)).length = 2
      ∧ (run [Op.insert .nullptr "a", Op.insert (.node "w" .nullptr) "b"]
        (LinkedList.new : LinkedList String)).display = "a->b->w"
      ∧ (run [Op.insert .nullptr "a", Op.insert (.node "w" .nullptr) "b"]
        (LinkedList.new : LinkedList String)).display
          ≠ String.intercalate "->" (["a", "b"].map toString) := by
  decide

/-- C15: a call of `display()` leaves the list as it was, head, every node and the counter
alike, so `length()` is unchanged and a second call of `display()` right after the first
returns the same text. -/
theorem C15_display_read_only [ToString T] (l : LinkedList T) :
    (Op.exec Op.display l).1 = l
      ∧ (Op.exec Op.display l).1.m_head = l.m_head
      ∧ (Op.exec Op.display l).1.length = l.length
      ∧ (Op.exec Op.display (Op.exec Op.display l).1).2 = (Op.exec Op.display l).2
      ∧ (Op.exec Op.display l).2 = Ret.text l.display :=
  ⟨rfl, rfl, rfl, rfl, rfl⟩

/-- C16: every sequence of calls of the six registered entry points on the global list ends in
the same state and returns the same values (lengths and renderings) as the sequence of
container operations that the specification assigns to them, run on an empty list of text,
with text arguments passed as they are. -/
theorem C16_adapter_refines_list (calls : List main_cpp.Call) :
    main_cpp.session calls main_cpp.ll
      = (run (calls.map main_cpp.Call.toOp) LinkedList.new,
          trace (calls.map main_cpp.Call.toOp) LinkedList.new) := by
  rw [main_cpp.session_eq]
  rfl

/-- C17 (a node created by `insert` has a null successor when it is linked in): the code
after `insert(v)` on the empty list.  The successor of the head is whatever the `next` member
of the new node held at allocation, since neither the constructor nor `insert` assigns it;
with a non-null content the successor of the head is not null. -/
theorem C17_insert_keeps_allocated_next (v : T) (fresh : NodePtr T) :
    (LinkedList.insert fresh v LinkedList.new).m_head = .node v fresh
      ∧ (LinkedList.insert (.node "w" .nullptr) "v" LinkedList.new).m_head
          = .node "v" (.node "w" .nullptr)
      ∧ (LinkedList.insert (.node "w" .nullptr) "v" LinkedList.new).m_head
          ≠ .node "v" .nullptr := by
  refine ⟨by simp [LinkedList.insert, Node.new, LinkedList.new], by decide, by decide⟩

/-- C18: on every list (its chain is finite and acyclic), `insert`, `remove` and `display`
return, their loops run at most as many times as the chain has nodes, and the loop of `remove`,
started only when the list has two nodes or more, never reads through a null pointer. -/
theorem C18_loops_bounded_by_node_count [ToString T] (fresh : NodePtr T) (v : T)
    (l : LinkedList T) :
    (∃ k, l.insert_traced fresh v = some (l.insert fresh v, k) ∧ k ≤ l.m_head.count)
      ∧ (∃ k, l.remove_traced = some (l.remove, k) ∧ k ≤ l.m_head.count)
      ∧ (∃ k, l.display_traced = (l.display, k) ∧ k ≤ l.m_head.count) := by
  obtain ⟨p, len⟩ := l
  cases p with
  | nullptr =>
    simp [LinkedList.insert_traced, LinkedList.insert, LinkedList.remove_traced,
      LinkedList.remove, LinkedList.display_traced, LinkedList.display]
  | node d n =>
    refine ⟨⟨n.count, ?_, ?_⟩, ?_, ⟨n.count, ?_, ?_⟩⟩
    · simp [LinkedList.insert_traced, LinkedList.insert, LinkedList.insert_loop_eq]
    · simp [NodePtr.count]
    · cases n with
      | nullptr => simp [LinkedList.remove_traced, LinkedList.remove]
      | node d2 n2 =>
        refine ⟨n2.count, ?_, ?_⟩
        · simp [LinkedList.remove_traced, LinkedList.remove, LinkedList.remove_loop_eq]
        · simp [NodePtr.count]
          omega
    · simp [LinkedList.display_traced, LinkedList.display, LinkedList.display_loop_traced_eq]
    · simp [NodePtr.count]

/-- C19 (in every reachable state `length()` is at least the number of nodes): the code after
`insert("v")` on the new list when the `next` member of the new node holds a pointer to a node,
not null.  `insert` never assigns that member, so the chain has 2 nodes while `length()`
returns 1. -/
theorem C19_node_count_above_length :
    Reachable (run [Op.insert (.node "w" .nullptr) "v"] (LinkedList.new : LinkedList String))
      ∧ (run [Op.insert (.node "w" .nullptr) "v"]
          (LinkedList.new : LinkedList String)).m_head.count = 2
      ∧ (run [Op.insert (.node "w" .nullptr) "v"]
          (LinkedList.new : LinkedList String)).length = 1 :=
  ⟨⟨[Op.insert (.node "w" .nullptr) "v"], rfl⟩, by decide⟩

/-- C20: `display()` does not determine the elements of a list of text: the lists `a->b` and
`a, b` have different elements and the same rendering, and so have the list with the single
element `EMPTY_LIST` and the empty list. -/
theorem C20_display_not_injective :
    (run [Op.insert .nullptr "a->b"] (LinkedList.new : LinkedList String)).m_head.toList
        ≠ (run [Op.insert .nullptr "a", Op.insert .nullptr "b"]
            (LinkedList.new : LinkedList String)).m_head.toList
      ∧ (run [Op.insert .nullptr "a->b"] (LinkedList.new : LinkedList String)).display
        = (run [Op.insert .nullptr "a", Op.insert .nullptr "b"]
            (LinkedList.new : LinkedList String)).display
      ∧ (run [Op.insert .nullptr "EMPTY_LIST"] (LinkedList.new : LinkedList String)).m_head.toList
        ≠ (LinkedList.new : LinkedList String).m_head.toList
      ∧ (run [Op.insert .nullptr "EMPTY_LIST"] (LinkedList.new : LinkedList String)).display
        = (LinkedList.new : LinkedList String).display := by
  decide

end collection
